import Mathlib

/-!
PixelMap conversion pipeline — verification development.

Shallow embedding of the core image-to-pixel-map pipeline of the PixelMap
repository, together with theorems settling the frozen claims about it.

The embedded source functions are:
* `isGreyscale`, `convertToPixelMap`, `validatePixelMap`, `pixelMapToCSV`
  from `src/utils/imageProcessor.js`;
* the `POST /convert` route handler from `src/api/convert.js`;
* the variant `convertToPixelMap` from `src/unnamed/part_008`
  (the one with the out-of-bounds "default to black" branch).

Modelling conventions:
* Raw pixel bytes are natural numbers; theorems that correspond to runs on
  real image data carry the hypotheses that the byte sequence has length at
  least `width*height*4` and every byte is `≤ 255` (what a decoded
  `Uint8ClampedArray` guarantees).  A JavaScript read `data[idx]` is modelled
  by `List.getD data idx 0`; all theorems about real behaviour keep reads in
  bounds via those hypotheses.
* JavaScript number arithmetic is IEEE-754 binary64.  Every number this
  pipeline manipulates is a nonnegative dyadic rational `m / 2^k` well inside
  the normal range, so doubles are modelled exactly by the `Dyadic` type,
  with each arithmetic operation followed by `flD`, the rounding of the
  exact result to 53 mantissa bits, to nearest, ties to even.  The decimal
  literals `0.299`, `0.587`, `0.114` are converted to their nearest binary64
  values (`lit299`...), and the luminance `0.299*r + 0.587*g + 0.114*b` is
  evaluated left-to-right with a rounding after every product and sum,
  exactly as the source's expression is.  (This matters: at 215 RGB triples
  the double evaluation floors one lower than the exact rational value —
  see claim C1.)  The display value `255 - s*255/9` is the exact rational
  `(2295 - 255*s)/9`; for `s ≤ 9` the double evaluation of that expression
  is within half an ulp of it, so its clamped byte store agrees with
  rounding the exact value.
* A store into a `Uint8ClampedArray` clamps to `[0, 255]` and rounds
  half-to-even; `roundHalfEvenDiv`/`displayGreyVal` model this.
* Ambient effects (the `Date` used in the CSV header, the decoded image the
  route obtains from the request body) are passed as explicit parameters.
-/

set_option maxHeartbeats 1000000

/-- A decoded image: width, height and flat RGBA bytes (4 per pixel). -/
structure ImageBuffer where
  width : ℕ
  height : ℕ
  data : List ℕ
deriving DecidableEq, Repr

/-- Read a byte from flat pixel data, as JavaScript `data[idx]` does.
Out-of-bounds reads are modelled as 0; every theorem about real behaviour
carries a length hypothesis that keeps all reads in bounds. -/
def getB (d : List ℕ) (i : ℕ) : ℕ := d.getD i 0

/-- The per-pixel test of `isGreyscale`: continue scanning iff
`r == g && g == b` (the source returns `false` on `r !== g || g !== b`). -/
def greyPix (d : List ℕ) (idx : ℕ) : Bool :=
  (getB d idx == getB d (idx + 1)) && (getB d (idx + 1) == getB d (idx + 2))

/-- The nested `for y / for x` scan of `isGreyscale`
(`src/utils/imageProcessor.js`, lines 15-27), instrumented with the number of
pixels examined.  The double loop visits byte index `(y*width + x)*4` for
`y < height`, `x < width`, i.e. index `4*p` for the row-major pixel number
`p < width*height` in increasing order, which is how it is phrased here.
The early `return false` of the source is the second branch; the count
records how many pixels were read before returning. -/
def isGreyscaleGo (d : List ℕ) : ℕ → ℕ → Bool × ℕ
  | _, 0 => (true, 0)
  | p, n + 1 =>
    if greyPix d (4 * p) then
      let r := isGreyscaleGo d (p + 1) n
      (r.1, r.2 + 1)
    else
      (false, 1)

/-- `isGreyscale` with the instrumentation (result, pixels examined). -/
def isGreyscaleCount (img : ImageBuffer) : Bool × ℕ :=
  isGreyscaleGo img.data 0 (img.width * img.height)

/-- `isGreyscale` from `src/utils/imageProcessor.js` (lines 10-29): scans the
pixels and returns `false` at the first one with unequal RGB channels.  It
only reads from the buffer (the embedding is a pure function of it). -/
def isGreyscale (img : ImageBuffer) : Bool :=
  (isGreyscaleCount img).1

/-- Round the nonnegative rational `num / den` to the nearest natural number,
ties to even — the rounding a `Uint8ClampedArray` store performs on a
nonnegative value. -/
def roundHalfEvenDiv (num den : ℕ) : ℕ :=
  let q := num / den
  let r := num % den
  if 2 * r < den then q
  else if den < 2 * r then q + 1
  else if q % 2 = 0 then q else q + 1

/-- A nonnegative dyadic rational `m / 2^k`: the exact value of a
nonnegative IEEE-754 binary64 number.  Every number this pipeline
manipulates has this form and stays well inside the normal double range
(no subnormals, no overflow), so doubles are modelled exactly. -/
structure Dyadic where
  m : ℕ
  k : ℕ
deriving DecidableEq, Repr

/-- Number of halvings needed to bring `m` below `2^53` (0 when it already
is).  The fuel bounds the recursion; 128 is ample for every mantissa arising
here (`m < 2^128`). -/
def flShift : ℕ → ℕ → ℕ
  | 0, _ => 0
  | fuel + 1, m => if m < 2 ^ 53 then 0 else flShift fuel (m / 2) + 1

/-- Round a nonnegative dyadic value to binary64 precision: keep at most 53
mantissa bits, rounding to nearest with ties to even — the IEEE-754
rounding JavaScript performs after every arithmetic operation.  A value
whose mantissa already fits is returned unchanged (it is exactly
representable). -/
def flD (x : Dyadic) : Dyadic :=
  if x.m < 2 ^ 53 then x
  else
    let s := flShift 128 x.m
    let m2 := roundHalfEvenDiv x.m (2 ^ s)
    if s ≤ x.k then ⟨m2, x.k - s⟩ else ⟨m2 * 2 ^ (s - x.k), 0⟩

/-- JavaScript double addition: the exact sum of the two dyadic values,
then binary64 rounding. -/
def daddD (x y : Dyadic) : Dyadic :=
  let k := max x.k y.k
  flD ⟨x.m * 2 ^ (k - x.k) + y.m * 2 ^ (k - y.k), k⟩

/-- JavaScript double multiplication by a small natural number (a channel
byte, or the literal 10): the exact product, then binary64 rounding. -/
def dmulNatD (x : Dyadic) (n : ℕ) : Dyadic :=
  flD ⟨x.m * n, x.k⟩

/-- Smallest `e` with `num * 2^e ≥ den * 2^52` (fuel-bounded; 128 suffices
for the literals used here). -/
def fracExp : ℕ → ℕ → ℕ → ℕ
  | 0, _, _ => 0
  | fuel + 1, num, den =>
    if den * 2 ^ 52 ≤ num then 0 else fracExp fuel (2 * num) den + 1

/-- The binary64 value of a decimal literal `num / den` in `(0, 1)`: scale
into `[2^52, 2^53)` and round the mantissa to nearest, ties to even. -/
def dyadicOfFrac (num den : ℕ) : Dyadic :=
  let e := fracExp 128 num den
  ⟨roundHalfEvenDiv (num * 2 ^ e) den, e⟩

/-- The source literal `0.299` as a binary64 value. -/
def lit299 : Dyadic := dyadicOfFrac 299 1000

/-- The source literal `0.587` as a binary64 value. -/
def lit587 : Dyadic := dyadicOfFrac 587 1000

/-- The source literal `0.114` as a binary64 value. -/
def lit114 : Dyadic := dyadicOfFrac 114 1000

/-- The luminance `0.299 * r + 0.587 * g + 0.114 * b` evaluated exactly as
JavaScript evaluates the source expression: left-to-right, every product
and sum rounded to binary64. -/
def jsGreyLum (r g b : ℕ) : Dyadic :=
  daddD (daddD (dmulNatD lit299 r) (dmulNatD lit587 g)) (dmulNatD lit114 b)

/-- `Math.floor(grey * 10 / 256)` on a double `grey`: the product by 10 is
rounded to binary64; the division by 256 only shifts the exponent (exact
for these values); the floor is the integer part of the resulting dyadic
value. -/
def jsFloorGrey10Div256 (grey : Dyadic) : ℕ :=
  let y := dmulNatD grey 10
  y.m / 2 ^ (y.k + 8)

/-- The grey level of the pixel whose first byte is at `idx`, as a double:
`grey = data[idx]` (an integer channel value, exact as a double) on the
already-greyscale branch, and the binary64 luminance otherwise, exactly as
in `src/utils/imageProcessor.js` lines 59-71. -/
def greyValAt (alreadyGreyscale : Bool) (d : List ℕ) (idx : ℕ) : Dyadic :=
  if alreadyGreyscale then
    ⟨getB d idx, 0⟩
  else
    jsGreyLum (getB d idx) (getB d (idx + 1)) (getB d (idx + 2))

/-- The quantization of `src/utils/imageProcessor.js` lines 73-78:
`shade = 9 - Math.floor(grey * 10 / 256)` followed by
`Math.min(Math.max(shade, 0), 9)`, on the double `grey`. -/
def quantizeShade (grey : Dyadic) : ℕ :=
  let shade : ℤ := 9 - (jsFloorGrey10Div256 grey : ℤ)
  (min (max shade 0) 9).toNat

/-- The display value written back for a shade `s`
(`src/utils/imageProcessor.js` line 82): `255 - s * 255 / 9`, as stored into
the `Uint8ClampedArray`.  The exact rational value of the float expression is
`(2295 - 255*s)/9`; the store clamps a negative value (only possible for
`s > 9`, which the clamp in `quantizeShade` rules out) to 0 and otherwise
rounds half-to-even.  For `s ≤ 9` the value is at most 255, so the upper
clamp of the store cannot fire. -/
def displayGreyVal (s : ℕ) : ℕ :=
  if 2295 ≤ 255 * s then 0
  else roundHalfEvenDiv (2295 - 255 * s) 9

/-- The shade the loop body computes for pixel `(y, x)` reading from `d`. -/
def cellAt (alreadyGreyscale : Bool) (d : List ℕ) (w y x : ℕ) : ℕ :=
  quantizeShade (greyValAt alreadyGreyscale d ((y * w + x) * 4))

/-- One iteration of the inner loop body of `convertToPixelMap`
(`src/utils/imageProcessor.js` lines 55-87): read the pixel at
`idx = (y*width + x)*4`, compute its shade, and write the display grey into
bytes `idx..idx+2` and 255 into the alpha byte `idx+3`.
Returns the shade pushed onto the row and the updated data. -/
def processPixel (alreadyGreyscale : Bool) (w y x : ℕ) (data : List ℕ) :
    ℕ × List ℕ :=
  let idx := (y * w + x) * 4
  let finalShade := quantizeShade (greyValAt alreadyGreyscale data idx)
  let displayGrey := displayGreyVal finalShade
  let data := (((data.set idx displayGrey).set (idx + 1) displayGrey).set
      (idx + 2) displayGrey).set (idx + 3) 255
  (finalShade, data)

/-- The inner `for x` loop of `convertToPixelMap`, processing `n` pixels of
row `y` starting at column `x`, threading the mutated data through. -/
def processCells (alreadyGreyscale : Bool) (w y : ℕ) :
    ℕ → List ℕ → ℕ → List ℕ × List ℕ
  | _, data, 0 => ([], data)
  | x, data, n + 1 =>
    let p := processPixel alreadyGreyscale w y x data
    let r := processCells alreadyGreyscale w y (x + 1) p.2 n
    (p.1 :: r.1, r.2)

/-- The outer `for y` loop of `convertToPixelMap`, processing `n` rows
starting at row `y`. -/
def processRows (alreadyGreyscale : Bool) (w : ℕ) :
    ℕ → List ℕ → ℕ → List (List ℕ) × List ℕ
  | _, data, 0 => ([], data)
  | y, data, n + 1 =>
    let row := processCells alreadyGreyscale w y 0 data w
    let rest := processRows alreadyGreyscale w (y + 1) row.2 n
    (row.1 :: rest.1, rest.2)

/-- `convertToPixelMap` from `src/utils/imageProcessor.js` (lines 38-104):
classify the image with `isGreyscale`, then run the per-pixel loop over a
clone of the data (the clone is the same byte list here — the theorems'
hypotheses put every byte in `[0, 255]`, on which `new Uint8ClampedArray`
is the identity), producing the pixel map and the mutated clone packaged
as the `greyscaleImageData` of the given `width`/`height`. -/
def convertToPixelMap (img : ImageBuffer) (width height : ℕ) :
    List (List ℕ) × ImageBuffer :=
  let alreadyGreyscale := isGreyscale img
  let r := processRows alreadyGreyscale width 0 img.data height
  (r.1, ⟨width, height, r.2⟩)

/-- The byte the loop writes at channel `c` of a pixel with shade `s`:
display grey into R, G, B and 255 into alpha
(`src/utils/imageProcessor.js` lines 82-86). -/
def writeVal (s c : ℕ) : ℕ :=
  if c = 3 then 255 else displayGreyVal s

/-! ## Validator, exporter, route handler, and the part_008 variant -/

/-- A JavaScript value sitting in a pixel-map cell, as `validatePixelMap`
classifies it: a finite number (exact rational), `NaN`, `±Infinity`, or a
value whose `typeof` is not `'number'`. -/
inductive JSCell
  | num (q : ℚ)
  | nan
  | posInf
  | negInf
  | nonNum
deriving DecidableEq

/-- `typeof value === 'number'` (`NaN` and `±Infinity` are numbers). -/
def jsIsNumber : JSCell → Bool
  | .nonNum => false
  | _ => true

/-- The JavaScript comparison `value < 0` (false for `NaN`). -/
def jsLtZero : JSCell → Bool
  | .num q => decide (q < 0)
  | .negInf => true
  | _ => false

/-- The JavaScript comparison `value > 9` (false for `NaN`). -/
def jsGtNine : JSCell → Bool
  | .num q => decide (9 < q)
  | .posInf => true
  | _ => false

/-- `Number.isInteger(value)` (false for `NaN`, `±Infinity`, non-numbers). -/
def jsIsInteger : JSCell → Bool
  | .num q => q.den == 1
  | _ => false

/-- The cell test of `validatePixelMap` (`src/utils/imageProcessor.js`
line 128): the cell is acceptable iff none of
`typeof value !== 'number'`, `value < 0`, `value > 9`,
`!Number.isInteger(value)` holds. -/
def cellOK (c : JSCell) : Bool :=
  jsIsNumber c && !jsLtZero c && !jsGtNine c && jsIsInteger c

/-- The row test of `validatePixelMap` (lines 120-131): the row must have the
expected width and every cell must pass `cellOK`.  (On the list-of-lists
domain modelled here the `Array.isArray` checks of the source always pass.) -/
def rowOK (expectedWidth : ℕ) (row : List JSCell) : Bool :=
  row.length == expectedWidth && row.all cellOK

/-- `validatePixelMap` from `src/utils/imageProcessor.js` (lines 113-135):
row count must equal the expected height and every row must pass `rowOK`.
The source's early `return false` on the first offending row/cell is the
`List.all` short-circuit; the function is total (never throws). -/
def validatePixelMap (pixelMap : List (List JSCell))
    (expectedWidth expectedHeight : ℕ) : Bool :=
  pixelMap.length == expectedHeight && pixelMap.all (rowOK expectedWidth)

/-- Inject the shades produced by `convertToPixelMap` (natural numbers) into
the JavaScript value domain of the validator. -/
def mapToJS (pm : List (List ℕ)) : List (List JSCell) :=
  pm.map (fun row => row.map (fun n => JSCell.num ((n : ℕ) : ℚ)))

/-- `pixelMapToCSV` from `src/utils/imageProcessor.js` (lines 142-153):
a fixed title line, a `Dimensions: WxH` line computed from
`pixelMap[0].length` and `pixelMap.length`, the hardcoded `Nuances: 10`
line, a `Date:` line (the `new Date().toLocaleString('fr-FR')` call is
modelled by the explicit `dateStr` parameter), a blank line, then the
`csvContent += row.join(',') + '\n'` loop.  (`pixelMap[0]` on an empty map
would throw in the source; it is modelled with `headD`, and the theorems
about this function assume a non-empty map.) -/
def pixelMapToCSV (pixelMap : List (List ℕ)) (dateStr : String) : String :=
  let csvContent := "Carte de Pixels\n"
  let csvContent := csvContent ++ "Dimensions: "
      ++ toString (pixelMap.headD []).length ++ "x"
      ++ toString pixelMap.length ++ "\n"
  let csvContent := csvContent ++ "Nuances: 10\n"
  let csvContent := csvContent ++ "Date: " ++ dateStr ++ "\n\n"
  pixelMap.foldl
    (fun acc row => acc ++ String.intercalate "," (row.map toString) ++ "\n")
    csvContent

/-- The `shades` field of a conversion request body: absent (so the
destructuring default `shades = 10` applies), or a supplied value carried as
its `parseInt` interpretation — `some n` when `parseInt(shades)` yields the
integer `n`, `none` when it yields `NaN` (a non-numeric value). -/
inductive ShadesField
  | absent
  | value (parsed : Option ℤ)
deriving DecidableEq

/-- `parseInt(shades)` with the destructuring default applied first
(`src/api/convert.js` lines 82, 96); `parseInt(10) = 10`. -/
def parsedShades : ShadesField → Option ℤ
  | .absent => some 10
  | .value p => p

/-- The `format` field after its destructuring default: `'json'` (also the
default), `'csv'`, or any other string (rejected by the
`['json', 'csv'].includes(format)` check). -/
inductive ReqFormat
  | json
  | csv
  | other
deriving DecidableEq

/-- The observable outcome of the `POST /convert` handler. -/
inductive ApiResponse
  | missingImage
  | invalidShades
  | invalidFormat
  | processingError
  | okCsv (csv : String)
  | okJson (pixelMap : List (List ℕ)) (width height : ℕ) (shades : ℤ)
      (timestamp : String)
deriving DecidableEq

/-- The `POST /convert` route handler from `src/api/convert.js`
(lines 79-190): reject when `imageData` is missing; reject when
`parseInt(shades)` is `NaN` or outside `[9, 12]`; reject unrecognized
formats; then convert the decoded image (the decode of the base64 payload is
modelled by the `decoded` parameter) at the hardcoded 50×70 target, validate
the result, and answer with the CSV text or the JSON payload
`{pixelMap, dimensions: {50, 70}, shades: shadeCount, timestamp}`.
The `new Date().toISOString()` / CSV date are modelled by `dateStr`. -/
def apiConvert (imageDataPresent : Bool) (decoded : ImageBuffer)
    (shades : ShadesField) (format : ReqFormat) (dateStr : String) :
    ApiResponse :=
  if imageDataPresent = false then .missingImage
  else
    match parsedShades shades with
    | none => .invalidShades
    | some shadeCount =>
      if shadeCount < 9 ∨ 12 < shadeCount then .invalidShades
      else if format = .other then .invalidFormat
      else
        let r := convertToPixelMap decoded 50 70
        if validatePixelMap (mapToJS r.1) 50 70 then
          match format with
          | .csv => .okCsv (pixelMapToCSV r.1 dateStr)
          | _ => .okJson r.1 50 70 shadeCount dateStr
        else .processingError

/-- Replace the echoed `shades` field of a JSON success response; identity on
every other response. -/
def replaceShades (n : ℤ) : ApiResponse → ApiResponse
  | .okJson pm w h _ t => .okJson pm w h n t
  | r => r

/-- Inner loop of the `convertToPixelMap` variant in `src/unnamed/part_008`
(lines 77-117): per pixel, if `idx + 3 >= data.length` it logs a warning and
pushes the default shade 9 ("default to black"), otherwise it uses the R
channel directly and quantizes with
`9 - Math.floor(grey * 10 / 256)` clamped into `[0, 9]`.
Returns the row and the number of out-of-bounds substitutions (warnings). -/
def part008_cells (d : List ℕ) (w y : ℕ) : ℕ → ℕ → List ℕ × ℕ
  | _, 0 => ([], 0)
  | x, n + 1 =>
    let idx := (y * w + x) * 4
    if d.length ≤ idx + 3 then
      let r := part008_cells d w y (x + 1) n
      (9 :: r.1, r.2 + 1)
    else
      let grey := getB d idx
      let shade : ℤ := 9 - (grey * 10 : ℤ) / 256
      let finalShade := (min (max shade 0) 9).toNat
      let r := part008_cells d w y (x + 1) n
      (finalShade :: r.1, r.2)

/-- Outer loop of the part_008 variant. -/
def part008_rows (d : List ℕ) (w : ℕ) : ℕ → ℕ → List (List ℕ) × ℕ
  | _, 0 => ([], 0)
  | y, n + 1 =>
    let row := part008_cells d w y 0 w
    let rest := part008_rows d w (y + 1) n
    (row.1 :: rest.1, row.2 + rest.2)

/-- `convertToPixelMap` from `src/unnamed/part_008` (lines 41-132): after the
input guard (the source returns an empty pixel map with a null image when
`imageData.width` or `imageData.height` is falsy, i.e. 0 here), it runs the
pure per-pixel loop — this variant never mutates the data; its
`greyscaleImageData` keeps the original bytes.  The result is paired with
the number of out-of-bounds default substitutions the run performed (each
one is a `console.warn` at line 85 of the source). -/
def part008_convertToPixelMap (img : ImageBuffer) (width height : ℕ) :
    (List (List ℕ) × Option ImageBuffer) × ℕ :=
  if img.width = 0 ∨ img.height = 0 then (([], none), 0)
  else
    let r := part008_rows img.data width 0 height
    ((r.1, some ⟨width, height, img.data⟩), r.2)

/-! ## Claim-side (spec-worded) definitions -/

/-- The shade formula exactly as claim C1 words it, parameterized by the
request's `shadeCount`: `(shadeCount-1) - floor(grey*shadeCount/256)`,
clamped into `[0, shadeCount-1]`.  `greyScaled` is the grey level scaled by
1000, so the floor is the integer division by `256 * 1000`. -/
def specShade (shadeCount : ℕ) (greyScaled : ℕ) : ℕ :=
  let s : ℤ := ((shadeCount : ℤ) - 1) - ((greyScaled : ℤ) * shadeCount) / 256000
  (min (max s 0) ((shadeCount : ℤ) - 1)).toNat

/-- The exact-rational reading of claim C1's grey level (scaled by 1000):
the pixel's R channel when the image is classified greyscale, and the exact
`0.299·R + 0.587·G + 0.114·B` luminance otherwise.  Used for the original
claim's counterexample and to exhibit where the program's double
evaluation diverges from this exact formula. -/
def specGreyScaled (classifiedGreyscale : Bool) (r g b : ℕ) : ℕ :=
  if classifiedGreyscale then 1000 * r else 299 * r + 587 * g + 114 * b

/-- The amended claim C1's shade formula for the code's fixed shade count
10, on a double grey: `9 - floor(grey*10/256)`, clamped into `[0, 9]`. -/
def specShadeJSTen (grey : Dyadic) : ℕ :=
  let s : ℤ := ((10 : ℤ) - 1) - (jsFloorGrey10Div256 grey : ℤ)
  (min (max s 0) ((10 : ℤ) - 1)).toNat

/-- The amended claim C1's grey level: the pixel's R channel when the image
is classified greyscale, and the IEEE-754 double-precision evaluation of
`0.299·R + 0.587·G + 0.114·B` otherwise. -/
def specGreyJS (classifiedGreyscale : Bool) (r g b : ℕ) : Dyadic :=
  if classifiedGreyscale then ⟨r, 0⟩ else jsGreyLum r g b

/-- The claim-side reading of "the CSV metadata header contains the shade
count of the request": the line `Nuances: <shades>` occurs in the CSV
text. -/
def specCSVHeaderShade (requestShades : ℕ) (csv : String) : Prop :=
  List.IsInfix ("Nuances: " ++ toString requestShades ++ "\n").data csv.data

instance (requestShades : ℕ) (csv : String) :
    Decidable (specCSVHeaderShade requestShades csv) := by
  unfold specCSVHeaderShade
  infer_instance

/-- Claim C3's cell-rejection condition, worded as in the claim with the
shade count as a parameter: the cell is a non-integer, negative, or at least
`shadeCount`.  (`NaN`, `±Infinity` and non-numbers are not integers;
`-Infinity` is negative; `+Infinity` exceeds every shade count.) -/
def specCellBad (shadeCount : ℚ) (c : JSCell) : Prop :=
  (match c with
    | .num q => ¬ q.den = 1
    | _ => True)
  ∨ (match c with
    | .num q => q < 0
    | .negInf => True
    | _ => False)
  ∨ (match c with
    | .num q => shadeCount ≤ q
    | .posInf => True
    | _ => False)

instance (shadeCount : ℚ) (c : JSCell) : Decidable (specCellBad shadeCount c) := by
  unfold specCellBad
  cases c <;> simp <;> infer_instance

/-- Claim C3's full rejection condition for a pixel map: wrong row count, or
some row of the wrong width, or some bad cell. -/
def specValidateRejects (shadeCount : ℚ) (pm : List (List JSCell))
    (w h : ℕ) : Prop :=
  pm.length ≠ h ∨ (∃ r ∈ pm, r.length ≠ w) ∨ ∃ r ∈ pm, ∃ c ∈ r, specCellBad shadeCount c

instance (shadeCount : ℚ) (pm : List (List JSCell)) (w h : ℕ) :
    Decidable (specValidateRejects shadeCount pm w h) := by
  unfold specValidateRejects
  infer_instance

/-- Spec-side description of the CSV body: one line per pixel-map row, the
row's cells comma-joined in order, each line ending in a newline. -/
def csvRowsText : List (List ℕ) → String
  | [] => ""
  | row :: rest =>
    String.intercalate "," (row.map toString) ++ "\n" ++ csvRowsText rest

/-! ## Sanity checks on concrete inputs -/

example : quantizeShade ⟨255, 0⟩ = 0 := by decide
example : quantizeShade ⟨0, 0⟩ = 9 := by decide
example : quantizeShade (jsGreyLum 255 0 0) = 7 := by decide
example : lit299 = ⟨5386305154335113, 54⟩ := by decide
example : lit587 = ⟨5287225962532962, 53⟩ := by decide
example : lit114 = ⟨8214565720323785, 56⟩ := by decide
example : displayGreyVal 1 = 227 := by decide
example : displayGreyVal 5 = 113 := by decide
example :
    (convertToPixelMap ⟨1, 1, [0, 0, 0, 255]⟩ 1 1).1 = [[9]] := by decide
example :
    (convertToPixelMap ⟨1, 1, [255, 255, 255, 255]⟩ 1 1).2.data
      = [255, 255, 255, 255] := by decide

/-! ## Characterization of the imperative loop -/

theorem getB_set_ne (l : List ℕ) (i j v : ℕ) (h : i ≠ j) :
    getB (l.set i v) j = getB l j := by
  simp [getB, List.getD_eq_getElem?_getD, List.getElem?_set_ne h]

theorem getB_set_self (l : List ℕ) (i v : ℕ) (h : i < l.length) :
    getB (l.set i v) i = v := by
  simp [getB, List.getD_eq_getElem?_getD, List.getElem?_set_self h]

theorem greyValAt_congr (g : Bool) (d d' : List ℕ) (idx : ℕ)
    (h : ∀ i, idx ≤ i → getB d i = getB d' i) :
    greyValAt g d idx = greyValAt g d' idx := by
  simp only [greyValAt, h idx (Nat.le_refl idx),
    h (idx + 1) (Nat.le_add_right idx 1), h (idx + 2) (Nat.le_add_right idx 2)]

theorem cellAt_congr (g : Bool) (d d' : List ℕ) (w y x : ℕ)
    (h : ∀ i, (y * w + x) * 4 ≤ i → getB d i = getB d' i) :
    cellAt g d w y x = cellAt g d' w y x := by
  unfold cellAt
  rw [greyValAt_congr g d d' ((y * w + x) * 4) h]

theorem processPixel_fst (g : Bool) (w y x : ℕ) (data : List ℕ) :
    (processPixel g w y x data).1 = cellAt g data w y x := rfl

theorem processPixel_snd_length (g : Bool) (w y x : ℕ) (data : List ℕ) :
    (processPixel g w y x data).2.length = data.length := by
  simp [processPixel, List.length_set]

theorem processPixel_snd_getB_out (g : Bool) (w y x : ℕ) (data : List ℕ)
    (i : ℕ) (h : i < (y * w + x) * 4 ∨ (y * w + x) * 4 + 4 ≤ i) :
    getB (processPixel g w y x data).2 i = getB data i := by
  unfold processPixel
  have h0 : (y * w + x) * 4 ≠ i := by omega
  have h1 : (y * w + x) * 4 + 1 ≠ i := by omega
  have h2 : (y * w + x) * 4 + 2 ≠ i := by omega
  have h3 : (y * w + x) * 4 + 3 ≠ i := by omega
  simp only []
  rw [getB_set_ne _ _ _ _ h3, getB_set_ne _ _ _ _ h2, getB_set_ne _ _ _ _ h1,
    getB_set_ne _ _ _ _ h0]

theorem processPixel_snd_getB_write (g : Bool) (w y x : ℕ) (data : List ℕ)
    (c : ℕ) (hc : c < 4) (hlt : (y * w + x) * 4 + c < data.length) :
    getB (processPixel g w y x data).2 ((y * w + x) * 4 + c)
      = writeVal (cellAt g data w y x) c := by
  unfold processPixel writeVal
  simp only []
  set idx := (y * w + x) * 4 with hidx
  set dg := displayGreyVal (quantizeShade (greyValAt g data idx)) with hdg
  have hlen1 : (data.set idx dg).length = data.length := by simp
  have hlen2 : ((data.set idx dg).set (idx + 1) dg).length = data.length := by simp
  have hlen3 : (((data.set idx dg).set (idx + 1) dg).set (idx + 2) dg).length
      = data.length := by simp
  interval_cases c
  · have e0 : idx + 0 = idx := by omega
    rw [e0, getB_set_ne _ _ _ _ (by omega), getB_set_ne _ _ _ _ (by omega),
      getB_set_ne _ _ _ _ (by omega), getB_set_self _ _ _ (by omega)]
    simp [cellAt]
  · rw [getB_set_ne _ _ _ _ (by omega), getB_set_ne _ _ _ _ (by omega),
      getB_set_self _ _ _ (by omega)]
    simp [cellAt]
  · rw [getB_set_ne _ _ _ _ (by omega), getB_set_self _ _ _ (by omega)]
    simp [cellAt]
  · rw [getB_set_self _ _ _ (by omega)]
    simp

/-- Master characterization of the inner loop: starting at column `x` of row
`y` on data that still agrees with the original `d0` on every byte index from
`(y*w + x)*4` on, the loop produces exactly the per-pixel shades computed
from `d0`, keeps the length, leaves bytes before the processed region as they
were and bytes after it as in `d0`, and fills the processed region with the
display writes. -/
theorem processCells_spec (g : Bool) (w y : ℕ) (d0 : List ℕ) :
    ∀ (n x : ℕ) (data : List ℕ),
      data.length = d0.length →
      (∀ i, (y * w + x) * 4 ≤ i → getB data i = getB d0 i) →
      (processCells g w y x data n).1
          = (List.range n).map (fun j => cellAt g d0 w y (x + j))
      ∧ (processCells g w y x data n).2.length = d0.length
      ∧ (∀ i, (y * w + (x + n)) * 4 ≤ i →
            getB (processCells g w y x data n).2 i = getB d0 i)
      ∧ (∀ i, i < (y * w + x) * 4 →
            getB (processCells g w y x data n).2 i = getB data i)
      ∧ (∀ j, j < n → ∀ c, c < 4 → (y * w + (x + j)) * 4 + c < d0.length →
            getB (processCells g w y x data n).2 ((y * w + (x + j)) * 4 + c)
              = writeVal (cellAt g d0 w y (x + j)) c) := by
  intro n
  induction n with
  | zero =>
    intro x data hlen hagree
    refine ⟨by simp [processCells], hlen, ?_, ?_, ?_⟩
    · intro i hi
      simpa [processCells] using hagree i (by omega)
    · intro i _
      simp [processCells]
    · intro j hj
      omega
  | succ n ih =>
    intro x data hlen hagree
    have hcells : processCells g w y x data (n + 1)
        = ((processPixel g w y x data).1
            :: (processCells g w y (x + 1) (processPixel g w y x data).2 n).1,
          (processCells g w y (x + 1) (processPixel g w y x data).2 n).2) := rfl
    set p := processPixel g w y x data with hp
    have hplen : p.2.length = d0.length := by
      rw [hp, processPixel_snd_length]; exact hlen
    have hpagree : ∀ i, (y * w + (x + 1)) * 4 ≤ i → getB p.2 i = getB d0 i := by
      intro i hi
      rw [hp, processPixel_snd_getB_out g w y x data i (by omega)]
      exact hagree i (by omega)
    obtain ⟨ih1, ih2, ih3, ih4, ih5⟩ := ih (x + 1) p.2 hplen hpagree
    have hhead : p.1 = cellAt g d0 w y x := by
      rw [hp, processPixel_fst]
      exact cellAt_congr g data d0 w y x (fun i hi => hagree i hi)
    refine ⟨?_, by rw [hcells]; exact ih2, ?_, ?_, ?_⟩
    · rw [hcells]
      simp only [List.range_succ_eq_map, List.map_cons, List.map_map]
      have hx0 : x + 0 = x := by omega
      have htail : (processCells g w y (x + 1) p.2 n).1
          = List.map ((fun j => cellAt g d0 w y (x + j)) ∘ Nat.succ)
              (List.range n) := by
        rw [ih1]
        apply List.map_congr_left
        intro j _
        simp only [Function.comp, Nat.succ_eq_add_one]
        have he : x + 1 + j = x + (j + 1) := by omega
        rw [he]
      rw [hhead, htail, hx0]
    · intro i hi
      rw [hcells]
      have : (y * w + ((x + 1) + n)) * 4 ≤ i := by omega
      exact ih3 i this
    · intro i hi
      rw [hcells]
      rw [ih4 i (by omega)]
      rw [hp, processPixel_snd_getB_out g w y x data i (by omega)]
    · intro j hj c hc hclt
      rw [hcells]
      cases j with
      | zero =>
        have hx0 : x + 0 = x := by omega
        rw [hx0] at hclt ⊢
        rw [ih4 ((y * w + x) * 4 + c) (by omega)]
        rw [hp, processPixel_snd_getB_write g w y x data c hc (by omega)]
        rw [cellAt_congr g data d0 w y x (fun i hi => hagree i hi)]
      | succ j' =>
        have he : x + (j' + 1) = (x + 1) + j' := by omega
        rw [he] at hclt ⊢
        exact ih5 j' (by omega) c hc hclt

/-- Master characterization of the outer loop: processing `n` rows starting at
row `y` on data that still agrees with the original `d0` from byte `y*w*4` on
yields the rows of per-pixel shades computed from `d0`, preserves the length,
leaves earlier bytes untouched, and fills every processed pixel's bytes with
the display writes. -/
theorem processRows_spec (g : Bool) (w : ℕ) (d0 : List ℕ) :
    ∀ (n y : ℕ) (data : List ℕ),
      data.length = d0.length →
      (∀ i, y * w * 4 ≤ i → getB data i = getB d0 i) →
      (processRows g w y data n).1
          = (List.range n).map
              (fun j => (List.range w).map (fun x => cellAt g d0 w (y + j) x))
      ∧ (processRows g w y data n).2.length = d0.length
      ∧ (∀ i, i < y * w * 4 → getB (processRows g w y data n).2 i = getB data i)
      ∧ (∀ j, j < n → ∀ x, x < w → ∀ c, c < 4 →
            ((y + j) * w + x) * 4 + c < d0.length →
            getB (processRows g w y data n).2 (((y + j) * w + x) * 4 + c)
              = writeVal (cellAt g d0 w (y + j) x) c) := by
  intro n
  induction n with
  | zero =>
    intro y data hlen hagree
    refine ⟨by simp [processRows], hlen, ?_, ?_⟩
    · intro i _
      simp [processRows]
    · intro j hj
      omega
  | succ n ih =>
    intro y data hlen hagree
    have hrows : processRows g w y data (n + 1)
        = ((processCells g w y 0 data w).1
            :: (processRows g w (y + 1) (processCells g w y 0 data w).2 n).1,
          (processRows g w (y + 1) (processCells g w y 0 data w).2 n).2) := rfl
    have hagree0 : ∀ i, (y * w + 0) * 4 ≤ i → getB data i = getB d0 i := by
      intro i hi
      exact hagree i (by omega)
    obtain ⟨hc1, hc2, hc3, hc4, hc5⟩ := processCells_spec g w y d0 w 0 data hlen hagree0
    set row := processCells g w y 0 data w with hrowdef
    have hmulsucc : (y + 1) * w = y * w + w := by ring
    have hrowagree : ∀ i, (y + 1) * w * 4 ≤ i → getB row.2 i = getB d0 i := by
      intro i hi
      exact hc3 i (by omega)
    obtain ⟨ih1, ih2, ih3, ih4⟩ := ih (y + 1) row.2 hc2 hrowagree
    refine ⟨?_, by rw [hrows]; exact ih2, ?_, ?_⟩
    · rw [hrows]
      simp only [List.range_succ_eq_map, List.map_cons, List.map_map]
      have hhead : row.1
          = List.map (fun x => cellAt g d0 w (y + 0) x) (List.range w) := by
        rw [hc1]
        apply List.map_congr_left
        intro j _
        have hy0 : y + 0 = y := by omega
        have hj0 : 0 + j = j := by omega
        rw [hy0, hj0]
      have htail : (processRows g w (y + 1) row.2 n).1
          = List.map
              ((fun j => List.map (fun x => cellAt g d0 w (y + j) x)
                  (List.range w)) ∘ Nat.succ)
              (List.range n) := by
        rw [ih1]
        apply List.map_congr_left
        intro j _
        simp only [Function.comp, Nat.succ_eq_add_one]
        have he2 : y + 1 + j = y + (j + 1) := by omega
        rw [he2]
      rw [hhead, htail]
    · intro i hi
      rw [hrows]
      rw [ih3 i (by omega)]
      exact hc4 i (by omega)
    · intro j hj x hx c hc hclt
      rw [hrows]
      cases j with
      | zero =>
        have he : y + 0 = y := by omega
        rw [he] at hclt ⊢
        have hidx : (y * w + x) * 4 + c < (y + 1) * w * 4 := by
          omega
        rw [ih3 ((y * w + x) * 4 + c) hidx]
        have h5 := hc5 x (by omega) c hc (by simpa using hclt)
        simpa using h5
      | succ j' =>
        have he : y + (j' + 1) = (y + 1) + j' := by omega
        rw [he] at hclt ⊢
        exact ih4 j' (by omega) x hx c hc hclt

/-- Any in-range pixel byte index is below `4*(w*h)`. -/
theorem pix_index_lt (w h y x c : ℕ) (hy : y < h) (hx : x < w) (hc : c < 4) :
    (y * w + x) * 4 + c < 4 * (w * h) := by
  have h2 : (y + 1) * w ≤ h * w := Nat.mul_le_mul_right w hy
  have h3 : (y + 1) * w = y * w + w := by ring
  have h4 : h * w = w * h := Nat.mul_comm h w
  omega

/-- The pixel map produced by `convertToPixelMap` is exactly the grid of
per-pixel shades computed from the input data. -/
theorem convertToPixelMap_fst (img : ImageBuffer) (w h : ℕ) :
    (convertToPixelMap img w h).1
      = (List.range h).map
          (fun y => (List.range w).map
            (fun x => cellAt (isGreyscale img) img.data w y x)) := by
  obtain ⟨h1, _, _, _⟩ := processRows_spec (isGreyscale img) w img.data h 0
    img.data rfl (fun i _ => rfl)
  unfold convertToPixelMap
  simp only []
  rw [h1]
  apply List.map_congr_left
  intro j _
  simp

/-- Cell access into the produced pixel map, for in-range coordinates. -/
theorem convertToPixelMap_cell (img : ImageBuffer) (w h y x : ℕ)
    (hy : y < h) (hx : x < w) :
    (((convertToPixelMap img w h).1.getD y []).getD x 0)
      = cellAt (isGreyscale img) img.data w y x := by
  rw [convertToPixelMap_fst]
  simp [List.getD_eq_getElem?_getD, List.getElem?_map, List.getElem?_range, hy, hx]

/-- The display buffer keeps the input's width, height and data length. -/
theorem convertToPixelMap_snd_shape (img : ImageBuffer) (w h : ℕ) :
    (convertToPixelMap img w h).2.width = w
    ∧ (convertToPixelMap img w h).2.height = h
    ∧ (convertToPixelMap img w h).2.data.length = img.data.length := by
  obtain ⟨_, h2, _, _⟩ := processRows_spec (isGreyscale img) w img.data h 0
    img.data rfl (fun i _ => rfl)
  exact ⟨rfl, rfl, h2⟩

/-- Bytes of the display buffer at an in-range pixel: the display grey of the
pixel's shade in channels 0-2 and 255 in the alpha channel. -/
theorem convertToPixelMap_snd_getB (img : ImageBuffer) (w h y x c : ℕ)
    (hlen : 4 * (w * h) ≤ img.data.length)
    (hy : y < h) (hx : x < w) (hc : c < 4) :
    getB (convertToPixelMap img w h).2.data ((y * w + x) * 4 + c)
      = writeVal (cellAt (isGreyscale img) img.data w y x) c := by
  obtain ⟨_, _, _, h4⟩ := processRows_spec (isGreyscale img) w img.data h 0
    img.data rfl (fun i _ => rfl)
  have hin : ((0 + y) * w + x) * 4 + c < img.data.length := by
    have := pix_index_lt w h y x c hy hx hc
    have hz : (0 + y) * w = y * w := by ring
    omega
  have := h4 y hy x hx c hc hin
  unfold convertToPixelMap
  simp only []
  simpa using this

/-- The computed shade is always at most 9 (the `Math.min(Math.max(..)..)`
clamp of the source). -/
theorem quantizeShade_le_nine (grey : Dyadic) : quantizeShade grey ≤ 9 := by
  unfold quantizeShade
  simp only []
  have h1 : min (max (9 - (jsFloorGrey10Div256 grey : ℤ)) 0) 9 ≤ (9 : ℤ) :=
    min_le_right _ _
  omega

/-- `cellAt` is always at most 9. -/
theorem cellAt_le_nine (g : Bool) (d : List ℕ) (w y x : ℕ) :
    cellAt g d w y x ≤ 9 :=
  quantizeShade_le_nine _

/-- Quantizing the stored display value of any shade `s ≤ 9` (on the
already-greyscale branch, where the grey level is the R channel) recovers
`s`: the shade-to-display-to-shade round trip is the identity. -/
theorem quantize_display_roundtrip :
    ∀ s, s < 10 → quantizeShade ⟨displayGreyVal s, 0⟩ = s := by
  decide

theorem greyPix_iff (d : List ℕ) (idx : ℕ) :
    greyPix d idx = true
      ↔ getB d idx = getB d (idx + 1) ∧ getB d (idx + 1) = getB d (idx + 2) := by
  simp [greyPix]

/-- The scan returns `true` iff every pixel in the scanned range passes the
per-pixel channel-equality test. -/
theorem isGreyscaleGo_fst_iff (d : List ℕ) :
    ∀ n p, (isGreyscaleGo d p n).1 = true
      ↔ ∀ j, j < n → greyPix d (4 * (p + j)) = true := by
  intro n
  induction n with
  | zero =>
    intro p
    simp [isGreyscaleGo]
  | succ n ih =>
    intro p
    by_cases hgp : greyPix d (4 * p) = true
    · simp only [isGreyscaleGo, hgp, if_true]
      rw [ih (p + 1)]
      constructor
      · intro h j hj
        cases j with
        | zero => simpa using hgp
        | succ j' =>
          have hh := h j' (by omega)
          have he : p + 1 + j' = p + (j' + 1) := by omega
          rwa [he] at hh
      · intro h j hj
        have hh := h (j + 1) (by omega)
        have he : p + (j + 1) = p + 1 + j := by omega
        rwa [he] at hh
    · have hfalse : greyPix d (4 * p) = false := by simpa using hgp
      constructor
      · intro h
        simp [isGreyscaleGo, hfalse] at h
      · intro h
        exact absurd (by simpa using h 0 (Nat.succ_pos n)) hgp

/-- When the scan succeeds it has examined every pixel. -/
theorem isGreyscaleGo_snd_of_true (d : List ℕ) :
    ∀ n p, (isGreyscaleGo d p n).1 = true → (isGreyscaleGo d p n).2 = n := by
  intro n
  induction n with
  | zero =>
    intro p _
    rfl
  | succ n ih =>
    intro p h
    by_cases hgp : greyPix d (4 * p) = true
    · simp only [isGreyscaleGo, hgp, if_true] at h ⊢
      rw [ih (p + 1) h]
    · have hfalse : greyPix d (4 * p) = false := by simpa using hgp
      simp [isGreyscaleGo, hfalse] at h

/-- When the scan fails, it failed at the first non-grey pixel and examined
exactly the pixels up to and including it: there is a pixel offset `j`
within range whose channel test fails, all earlier offsets pass, and the
examined count is `j + 1`. -/
theorem isGreyscaleGo_snd_of_false (d : List ℕ) :
    ∀ n p, (isGreyscaleGo d p n).1 = false →
      ∃ j, j < n ∧ greyPix d (4 * (p + j)) = false
        ∧ (∀ i, i < j → greyPix d (4 * (p + i)) = true)
        ∧ (isGreyscaleGo d p n).2 = j + 1 := by
  intro n
  induction n with
  | zero =>
    intro p h
    simp [isGreyscaleGo] at h
  | succ n ih =>
    intro p h
    by_cases hgp : greyPix d (4 * p) = true
    · simp only [isGreyscaleGo, hgp, if_true] at h ⊢
      obtain ⟨j, hj, hbad, hpre, hcount⟩ := ih (p + 1) h
      refine ⟨j + 1, by omega, ?_, ?_, by omega⟩
      · have he : p + (j + 1) = p + 1 + j := by omega
        rw [he]
        exact hbad
      · intro i hi
        cases i with
        | zero => simpa using hgp
        | succ i' =>
          have he : p + (i' + 1) = p + 1 + i' := by omega
          rw [he]
          exact hpre i' (by omega)
    · have hfalse : greyPix d (4 * p) = false := by simpa using hgp
      refine ⟨0, by omega, ?_, ?_, ?_⟩
      · simpa using hfalse
      · intro i hi
        omega
      · simp [isGreyscaleGo, hfalse]

/-- `isGreyscale` is the "every pixel has R = G = B" predicate. -/
theorem isGreyscale_iff (img : ImageBuffer) :
    isGreyscale img = true
      ↔ ∀ p, p < img.width * img.height →
          getB img.data (4 * p) = getB img.data (4 * p + 1)
          ∧ getB img.data (4 * p + 1) = getB img.data (4 * p + 2) := by
  unfold isGreyscale isGreyscaleCount
  rw [isGreyscaleGo_fst_iff]
  constructor
  · intro h p hp
    have hh := h p hp
    rw [Nat.zero_add] at hh
    exact (greyPix_iff img.data _).mp hh
  · intro h j hj
    rw [Nat.zero_add]
    exact (greyPix_iff _ _).mpr (h j hj)

/-- When the image is greyscale, the scan examined all pixels. -/
theorem isGreyscaleCount_snd (img : ImageBuffer)
    (h : isGreyscale img = true) :
    (isGreyscaleCount img).2 = img.width * img.height :=
  isGreyscaleGo_snd_of_true img.data (img.width * img.height) 0 h

/-! ## Bridges between the code's computation and the claim-side formulas -/

/-- With the shade count fixed at 10, the amended claim's formula is
exactly the code's quantization. -/
theorem quantizeShade_eq_specShadeJSTen (grey : Dyadic) :
    quantizeShade grey = specShadeJSTen grey := by
  unfold quantizeShade specShadeJSTen
  norm_num

theorem greyValAt_eq_specGreyJS (g : Bool) (d : List ℕ) (idx : ℕ) :
    greyValAt g d idx
      = specGreyJS g (getB d idx) (getB d (idx + 1)) (getB d (idx + 2)) := by
  cases g <;> simp [greyValAt, specGreyJS]

/-- A natural-number shade at most 9 passes the validator's cell test. -/
theorem cellOK_natCast (n : ℕ) (h : n ≤ 9) :
    cellOK (JSCell.num n) = true := by
  unfold cellOK jsIsNumber jsLtZero jsGtNine jsIsInteger
  simp only [Bool.and_eq_true, Bool.not_eq_true', decide_eq_false_iff_not]
  refine ⟨⟨⟨trivial, ?_⟩, ?_⟩, ?_⟩
  · exact not_lt.mpr (by positivity)
  · exact not_lt.mpr (by exact_mod_cast h)
  · simp

/-! ## Claim theorems -/

/-- Claim C1 (counterexample).  The claim asserts that for every shadeCount
in [9,12] each cell equals `(shadeCount-1) - floor(grey*shadeCount/256)`
clamped into `[0, shadeCount-1]`.  This fails at shadeCount = 9 on the
all-black 1×1 image: `convertToPixelMap` has no shade-count parameter and
stores 9, while the claim's formula gives 8. -/
theorem c1_counterexample :
    ¬ (∀ shadeCount, 9 ≤ shadeCount → shadeCount ≤ 12 →
        (((convertToPixelMap ⟨1, 1, [0, 0, 0, 255]⟩ 1 1).1.getD 0 []).getD 0 0)
          = specShade shadeCount
              (specGreyScaled (isGreyscale ⟨1, 1, [0, 0, 0, 255]⟩) 0 0 0)) := by
  intro hclaim
  have h9 := hclaim 9 (by norm_num) (by norm_num)
  exact absurd h9 (by decide)

/-- Claim C1 (amended).  `convertToPixelMap` takes no shade-count argument
and always quantizes to 10 shades: for every well-formed `ImageBuffer` of
the target width and height, each cell `(y, x)` holds
`9 - floor(grey*10/256)` clamped into `[0, 9]` (`specShadeJSTen`), where
the grey level is the pixel's R channel when the image is classified
greyscale and the IEEE-754 double-precision evaluation of
`0.299·R + 0.587·G + 0.114·B` otherwise (`specGreyJS`).  The double
evaluation is not the exact rational formula: at boundary triples it floors
one lower — at RGB (1, 57, 153), where `299·1 + 587·57 + 114·153 = 51200`
is exactly `2·25600`, the exact formula gives shade 7 while the program
computes shade 8 (second and third conjuncts).  A fully white image still
yields shade 0 and a fully black image shade 9 in every cell (see the
witness). -/
theorem c1_cell_formula (img : ImageBuffer) (w h : ℕ)
    (hw : img.width = w) (hh : img.height = h)
    (hlen : 4 * (w * h) ≤ img.data.length)
    (hbytes : ∀ v ∈ img.data, v ≤ 255)
    (y x : ℕ) (hy : y < h) (hx : x < w) :
    ((((convertToPixelMap img w h).1.getD y []).getD x 0)
      = specShadeJSTen
          (specGreyJS (isGreyscale img)
            (getB img.data ((y * w + x) * 4))
            (getB img.data ((y * w + x) * 4 + 1))
            (getB img.data ((y * w + x) * 4 + 2))))
    ∧ specShade 10 (specGreyScaled false 1 57 153) = 7
    ∧ specShadeJSTen (specGreyJS false 1 57 153) = 8 := by
  refine ⟨?_, by decide, by decide⟩
  rw [convertToPixelMap_cell img w h y x hy hx]
  unfold cellAt
  rw [quantizeShade_eq_specShadeJSTen, greyValAt_eq_specGreyJS]

/-- Witness for C1: a fully white 1×1 image yields shade 0 and a fully black
1×1 image yields shade 9, through `c1_cell_formula`. -/
theorem c1_witness :
    (((convertToPixelMap ⟨1, 1, [255, 255, 255, 255]⟩ 1 1).1.getD 0 []).getD 0 0) = 0
    ∧ (((convertToPixelMap ⟨1, 1, [0, 0, 0, 255]⟩ 1 1).1.getD 0 []).getD 0 0) = 9 := by
  constructor
  · rw [(c1_cell_formula ⟨1, 1, [255, 255, 255, 255]⟩ 1 1 rfl rfl (by decide)
      (by decide) 0 0 (by decide) (by decide)).1]
    decide
  · rw [(c1_cell_formula ⟨1, 1, [0, 0, 0, 255]⟩ 1 1 rfl rfl (by decide)
      (by decide) 0 0 (by decide) (by decide)).1]
    decide

/-- Claim C2 (counterexample).  The range invariant `cell < shadeCount`
fails for shadeCount = 9 (which is in [9,12]): an all-black image produces
cells equal to 9. -/
theorem c2_counterexample :
    (9 ≤ 9 ∧ 9 ≤ 12)
    ∧ ¬ (∀ row ∈ (convertToPixelMap ⟨1, 1, [0, 0, 0, 255]⟩ 1 1).1,
          ∀ cell ∈ row, cell < 9) :=
  ⟨by norm_num, by decide⟩

/-- Claim C2 (amended).  Every cell produced by the conversion is a natural
number strictly below 10 — the quantizer's fixed shade count — for every
valid `ImageBuffer`; the claimed bound `cell < shadeCount` therefore holds
for shadeCount ∈ [10,12] but not for shadeCount = 9. -/
theorem c2_cells_lt_ten (img : ImageBuffer) (w h : ℕ)
    (hlen : 4 * (w * h) ≤ img.data.length)
    (hbytes : ∀ v ∈ img.data, v ≤ 255) :
    ∀ row ∈ (convertToPixelMap img w h).1, ∀ cell ∈ row, cell < 10 := by
  intro row hrow cell hcell
  rw [convertToPixelMap_fst] at hrow
  simp only [List.mem_map, List.mem_range] at hrow
  obtain ⟨y, hy, rfl⟩ := hrow
  simp only [List.mem_map, List.mem_range] at hcell
  obtain ⟨x, hx, rfl⟩ := hcell
  have hle := cellAt_le_nine (isGreyscale img) img.data w y x
  omega

/-- Witness for C2 at the all-black 1×1 image: its single cell is below 10. -/
theorem c2_witness :
    ((convertToPixelMap ⟨1, 1, [0, 0, 0, 255]⟩ 1 1).1.getD 0 []).getD 0 0 < 10 := by
  have h := c2_cells_lt_ten ⟨1, 1, [0, 0, 0, 255]⟩ 1 1 (by decide) (by decide)
  exact h ((convertToPixelMap ⟨1, 1, [0, 0, 0, 255]⟩ 1 1).1.getD 0 [])
    (by decide)
    (((convertToPixelMap ⟨1, 1, [0, 0, 0, 255]⟩ 1 1).1.getD 0 []).getD 0 0)
    (by decide)

/-- Claim C10.  For every `ImageBuffer` whose data has length at least
`width*height*4` with byte values in `[0, 255]`, the pixel map returned by
`convertToPixelMap` passes `validatePixelMap` for the same width and
height. -/
theorem c10_convert_validates (img : ImageBuffer) (w h : ℕ)
    (hlen : w * h * 4 ≤ img.data.length)
    (hbytes : ∀ v ∈ img.data, v ≤ 255) :
    validatePixelMap (mapToJS (convertToPixelMap img w h).1) w h = true := by
  have hhh : (convertToPixelMap img w h).1.length = h := by
    rw [convertToPixelMap_fst]
    simp
  have hww : ∀ r ∈ (convertToPixelMap img w h).1, r.length = w := by
    intro r hr
    rw [convertToPixelMap_fst] at hr
    simp only [List.mem_map, List.mem_range] at hr
    obtain ⟨y, hy, rfl⟩ := hr
    simp
  have hcells : ∀ r ∈ (convertToPixelMap img w h).1, ∀ c ∈ r, c ≤ 9 := by
    intro r hr c hc
    rw [convertToPixelMap_fst] at hr
    simp only [List.mem_map, List.mem_range] at hr
    obtain ⟨y, hy, rfl⟩ := hr
    simp only [List.mem_map, List.mem_range] at hc
    obtain ⟨x, hx, rfl⟩ := hc
    exact cellAt_le_nine (isGreyscale img) img.data w y x
  unfold validatePixelMap mapToJS rowOK
  simp only [List.length_map, List.all_eq_true, Bool.and_eq_true, beq_iff_eq,
    List.mem_map]
  refine ⟨hhh, ?_⟩
  rintro r ⟨row, hrow, rfl⟩
  refine ⟨by simpa using hww row hrow, ?_⟩
  intro c hc
  simp only [List.mem_map] at hc
  obtain ⟨n, hn, rfl⟩ := hc
  exact cellOK_natCast n (hcells row hrow n hn)

/-- Witness for C10 at the all-black 1×1 image. -/
theorem c10_witness :
    validatePixelMap (mapToJS (convertToPixelMap ⟨1, 1, [0, 0, 0, 255]⟩ 1 1).1)
      1 1 = true :=
  c10_convert_validates ⟨1, 1, [0, 0, 0, 255]⟩ 1 1 (by decide) (by decide)

/-- The validator's cell test fails exactly on the cells claim C3 describes,
with the validator's fixed shade count 10: non-integers (including `NaN`,
`±Infinity` and non-numbers), negatives, and values at least 10. -/
theorem cellOK_false_iff (c : JSCell) :
    cellOK c = false ↔ specCellBad 10 c := by
  cases c with
  | num q =>
    by_cases hden : q.den = 1
    · obtain ⟨m, rfl⟩ : ∃ m : ℤ, q = (m : ℚ) :=
        ⟨q.num, ((Rat.den_eq_one_iff q).mp hden).symm⟩
      have h9 : ((9 : ℚ) < (m : ℚ)) ↔ (9 : ℤ) < m := by
        exact_mod_cast Iff.rfl
      have h0 : ((m : ℚ) < 0) ↔ m < (0 : ℤ) := by
        exact_mod_cast Iff.rfl
      have h10 : ((10 : ℚ) ≤ (m : ℚ)) ↔ (10 : ℤ) ≤ m := by
        exact_mod_cast Iff.rfl
      simp [cellOK, jsIsNumber, jsLtZero, jsGtNine, jsIsInteger, specCellBad,
        h9, h0, h10]
      omega
    · simp [cellOK, jsIsNumber, jsLtZero, jsGtNine, jsIsInteger, specCellBad,
        hden]
  | nan =>
    simp [cellOK, jsIsNumber, jsLtZero, jsGtNine, jsIsInteger, specCellBad]
  | posInf =>
    simp [cellOK, jsIsNumber, jsLtZero, jsGtNine, jsIsInteger, specCellBad]
  | negInf =>
    simp [cellOK, jsIsNumber, jsLtZero, jsGtNine, jsIsInteger, specCellBad]
  | nonNum =>
    simp [cellOK, jsIsNumber, jsLtZero, jsGtNine, jsIsInteger, specCellBad]

/-- Claim C3.  `validatePixelMap` is total (it never throws — the embedding
is a total function) and returns `false` exactly when the row count differs
from the expected height, or some row's length differs from the expected
width, or some cell is a non-integer, negative, or at least the validator's
shade count — which the source fixes at 10 (`value > 9` on line 128), so a
cell equal to 10 makes it return `false`. -/
theorem c3_validate_false_iff (pm : List (List JSCell)) (w h : ℕ) :
    validatePixelMap pm w h = false ↔ specValidateRejects 10 pm w h := by
  unfold validatePixelMap specValidateRejects rowOK
  rw [Bool.and_eq_false_iff]
  constructor
  · intro hfalse
    rcases hfalse with hlen | hall
    · left
      simpa using hlen
    · rw [List.all_eq_false] at hall
      obtain ⟨r, hr, hrow⟩ := hall
      rw [Bool.not_eq_true, Bool.and_eq_false_iff] at hrow
      rcases hrow with hw | hcells
      · right; left
        exact ⟨r, hr, by simpa using hw⟩
      · rw [List.all_eq_false] at hcells
        obtain ⟨c, hc, hbad⟩ := hcells
        rw [Bool.not_eq_true] at hbad
        right; right
        exact ⟨r, hr, c, hc, (cellOK_false_iff c).mp hbad⟩
  · intro hrej
    rcases hrej with hlen | ⟨r, hr, hw⟩ | ⟨r, hr, c, hc, hbad⟩
    · left
      simpa using hlen
    · right
      rw [List.all_eq_false]
      refine ⟨r, hr, ?_⟩
      rw [Bool.not_eq_true, Bool.and_eq_false_iff]
      left
      simpa using hw
    · right
      rw [List.all_eq_false]
      refine ⟨r, hr, ?_⟩
      rw [Bool.not_eq_true, Bool.and_eq_false_iff]
      right
      rw [List.all_eq_false]
      exact ⟨c, hc, by rw [Bool.not_eq_true]; exact (cellOK_false_iff c).mpr hbad⟩

/-- Claim C4.  For the code's fixed 10-shade quantization: the display buffer
produced by `convertToPixelMap` is classified greyscale (R = G = B
everywhere, alpha opaque), re-running the quantizer on it reproduces the
identical pixel map, and per shade index `s ∈ [0, 9]` quantizing the stored
display value `255 - s*255/9` (read back through the greyscale branch)
yields `s` again. -/
theorem c4_roundtrip (img : ImageBuffer) (w h : ℕ)
    (hlen : 4 * (w * h) ≤ img.data.length) :
    isGreyscale (convertToPixelMap img w h).2 = true
    ∧ (convertToPixelMap (convertToPixelMap img w h).2 w h).1
        = (convertToPixelMap img w h).1
    ∧ (∀ s, s < 10 → quantizeShade ⟨displayGreyVal s, 0⟩ = s) := by
  obtain ⟨hsw, hsh, hslen⟩ := convertToPixelMap_snd_shape img w h
  have hdisp : ∀ p, p < w * h → ∀ c, c < 3 →
      getB (convertToPixelMap img w h).2.data (4 * p + c)
        = displayGreyVal (cellAt (isGreyscale img) img.data w (p / w) (p % w)) := by
    intro p hp c hc
    have hw0 : 0 < w := by
      rcases Nat.eq_zero_or_pos w with h0 | h0
      · subst h0; omega
      · exact h0
    have hy : p / w < h := by
      rw [Nat.div_lt_iff_lt_mul hw0]
      have hcomm : w * h = h * w := Nat.mul_comm w h
      omega
    have hx : p % w < w := Nat.mod_lt p hw0
    have hpyx : p / w * w + p % w = p := by
      have h1 := Nat.div_add_mod p w
      have hcomm : w * (p / w) = p / w * w := Nat.mul_comm w (p / w)
      omega
    have hidx : 4 * p + c = (p / w * w + p % w) * 4 + c := by
      rw [hpyx]; ring
    rw [hidx,
      convertToPixelMap_snd_getB img w h (p / w) (p % w) c hlen hy hx (by omega)]
    unfold writeVal
    simp only [if_neg (by omega : ¬ c = 3)]
  have hgrey : isGreyscale (convertToPixelMap img w h).2 = true := by
    rw [isGreyscale_iff]
    rw [hsw, hsh]
    intro p hp
    have h0 := hdisp p hp 0 (by omega)
    rw [Nat.add_zero] at h0
    rw [h0, hdisp p hp 1 (by omega), hdisp p hp 2 (by omega)]
    simp
  refine ⟨hgrey, ?_, quantize_display_roundtrip⟩
  rw [convertToPixelMap_fst (convertToPixelMap img w h).2 w h,
    convertToPixelMap_fst img w h]
  apply List.map_congr_left
  intro y hy
  rw [List.mem_range] at hy
  apply List.map_congr_left
  intro x hx
  rw [List.mem_range] at hx
  have hcell0 : getB (convertToPixelMap img w h).2.data ((y * w + x) * 4)
      = displayGreyVal (cellAt (isGreyscale img) img.data w y x) := by
    have hg := convertToPixelMap_snd_getB img w h y x 0 hlen hy hx (by omega)
    rw [Nat.add_zero] at hg
    rw [hg]
    rfl
  have hgoal := quantize_display_roundtrip
      (cellAt (isGreyscale img) img.data w y x)
      (by have := cellAt_le_nine (isGreyscale img) img.data w y x; omega)
  calc cellAt (isGreyscale (convertToPixelMap img w h).2)
        (convertToPixelMap img w h).2.data w y x
      = quantizeShade
          ⟨getB (convertToPixelMap img w h).2.data ((y * w + x) * 4), 0⟩ := by
        rw [hgrey]
        simp [cellAt, greyValAt]
    _ = quantizeShade
          ⟨displayGreyVal (cellAt (isGreyscale img) img.data w y x), 0⟩ := by
        rw [hcell0]
    _ = cellAt (isGreyscale img) img.data w y x := hgoal

/-- Claim C5 (counterexample).  `isGreyscale` does not read every pixel: on a
2×1 image whose first pixel is (1,2,3) and whose second is (7,7,7), the scan
returns `false` after examining only 1 of the 2 pixels (the source's early
`return false` inside the loop). -/
theorem c5_counterexample :
    isGreyscaleCount ⟨2, 1, [1, 2, 3, 255, 7, 7, 7, 255]⟩ = (false, 1)
    ∧ (1 : ℕ) ≠ 2 * 1 :=
  ⟨by decide, by decide⟩

/-- Claim C5 (amended).  `isGreyscale` returns `true` iff every pixel
satisfies R = G = B; it is read-only (the embedding is a pure function that
leaves the buffer untouched); it reads every pixel when the image is
greyscale; and on a non-greyscale image it returns `false` at the first
pixel with unequal channels, having examined exactly the pixels up to and
including that one (every earlier pixel satisfies R = G = B). -/
theorem c5_isGreyscale_spec (img : ImageBuffer) :
    (isGreyscale img = true
      ↔ ∀ p, p < img.width * img.height →
          getB img.data (4 * p) = getB img.data (4 * p + 1)
          ∧ getB img.data (4 * p + 1) = getB img.data (4 * p + 2))
    ∧ (isGreyscale img = true
        → (isGreyscaleCount img).2 = img.width * img.height)
    ∧ (isGreyscale img = false
        → ∃ p, p < img.width * img.height
            ∧ ¬ (getB img.data (4 * p) = getB img.data (4 * p + 1)
                ∧ getB img.data (4 * p + 1) = getB img.data (4 * p + 2))
            ∧ (∀ q, q < p →
                getB img.data (4 * q) = getB img.data (4 * q + 1)
                ∧ getB img.data (4 * q + 1) = getB img.data (4 * q + 2))
            ∧ (isGreyscaleCount img).2 = p + 1) := by
  refine ⟨isGreyscale_iff img, fun h => isGreyscaleCount_snd img h, ?_⟩
  intro hfalse
  obtain ⟨j, hj, hbad, hpre, hcount⟩ :=
    isGreyscaleGo_snd_of_false img.data (img.width * img.height) 0 hfalse
  rw [Nat.zero_add] at hbad
  refine ⟨j, hj, ?_, ?_, hcount⟩
  · intro hcontra
    rw [(greyPix_iff img.data (4 * j)).mpr hcontra] at hbad
    simp at hbad
  · intro q hq
    have hq2 := hpre q hq
    rw [Nat.zero_add] at hq2
    exact (greyPix_iff img.data (4 * q)).mp hq2

/-- Witness for C5: a fully grey 2×1 image is classified greyscale and the
scan examined both pixels. -/
theorem c5_witness :
    isGreyscale ⟨2, 1, [7, 7, 7, 255, 3, 3, 3, 0]⟩ = true
    ∧ (isGreyscaleCount ⟨2, 1, [7, 7, 7, 255, 3, 3, 3, 0]⟩).2 = 2 * 1 := by
  have h := c5_isGreyscale_spec ⟨2, 1, [7, 7, 7, 255, 3, 3, 3, 0]⟩
  have hg : isGreyscale ⟨2, 1, [7, 7, 7, 255, 3, 3, 3, 0]⟩ = true :=
    h.1.mpr (by decide)
  exact ⟨hg, h.2.1 hg⟩

/-- Claim C6 (code bug in `src/unnamed/part_008`).  On an `ImageBuffer` whose
data (4 bytes) is shorter than `width*height*4 = 8`, the variant quantizer
does not fail: pixel (0,0) is in bounds and quantizes to 9, pixel (0,1) is
out of bounds, so the code logs one warning and substitutes the default
shade 9, then returns a complete pixel map `[[9, 9]]` together with the
original bytes — the conversion succeeds where the claim (and the spec's
failure semantics) require a fatal invariant violation. -/
theorem c6_part008_defaults_out_of_bounds :
    part008_convertToPixelMap ⟨2, 1, [0, 0, 0, 255]⟩ 2 1
      = (([[9, 9]], some ⟨2, 1, [0, 0, 0, 255]⟩), 1) := by
  decide

/-- Claim C7 (counterexample).  The "if and only if" fails on a conversion
request that supplies no image data: with a non-numeric shades value the
handler answers the missing-image-data error, not the invalid-shade-count
error, because the `!imageData` check comes first. -/
theorem c7_counterexample :
    apiConvert false ⟨0, 0, []⟩ (ShadesField.value none) ReqFormat.json "T"
      = ApiResponse.missingImage
    ∧ ApiResponse.missingImage ≠ ApiResponse.invalidShades :=
  ⟨rfl, by decide⟩

/-- Claim C7 (amended).  For every conversion request that supplies image
data: the handler answers the invalid-shade-count error iff
`parseInt(shades)` is `NaN` (non-numeric) or yields an integer outside
`[9, 12]`; when `shades` is omitted the default 10 is used and the request
is never rejected for its shade count — with the json format it proceeds to
a success response echoing `shades = 10` (or to the internal validation
error). -/
theorem c7_invalid_shades_iff (decoded : ImageBuffer) (shades : ShadesField)
    (format : ReqFormat) (dateStr : String) :
    (apiConvert true decoded shades format dateStr = ApiResponse.invalidShades
      ↔ (parsedShades shades = none
          ∨ ∃ n, parsedShades shades = some n ∧ (n < 9 ∨ 12 < n)))
    ∧ apiConvert true decoded ShadesField.absent format dateStr
        ≠ ApiResponse.invalidShades
    ∧ (apiConvert true decoded ShadesField.absent ReqFormat.json dateStr
          = ApiResponse.processingError
        ∨ apiConvert true decoded ShadesField.absent ReqFormat.json dateStr
          = ApiResponse.okJson (convertToPixelMap decoded 50 70).1 50 70 10
              dateStr) := by
  have main : ∀ s : ShadesField,
      apiConvert true decoded s format dateStr = ApiResponse.invalidShades
        ↔ (parsedShades s = none
            ∨ ∃ n, parsedShades s = some n ∧ (n < 9 ∨ 12 < n)) := by
    intro s
    unfold apiConvert
    rcases hps : parsedShades s with _ | n
    · simp [hps]
    · simp only [hps]
      by_cases hcond : n < 9 ∨ 12 < n
      · simp only [if_neg (by simp : ¬ (true = false)), if_pos hcond]
        constructor
        · intro _
          exact Or.inr ⟨n, rfl, hcond⟩
        · intro _
          trivial
      · simp only [if_neg (by simp : ¬ (true = false)), if_neg hcond]
        constructor
        · intro habs
          by_cases hfmt : format = ReqFormat.other
          · rw [if_pos hfmt] at habs
            exact absurd habs (by decide)
          · rw [if_neg hfmt] at habs
            rcases hval : validatePixelMap
                (mapToJS (convertToPixelMap decoded 50 70).1) 50 70 with _ | _
            · rw [if_neg (by simp [hval])] at habs
              exact absurd habs (by decide)
            · rw [if_pos (by simp [hval])] at habs
              cases format <;> simp_all
        · rintro (hnone | ⟨m, hm, hout⟩)
          · exact absurd hnone (by simp)
          · rw [Option.some_inj] at hm
            omega
  refine ⟨main shades, ?_, ?_⟩
  · intro habs
    rcases (main ShadesField.absent).mp habs with hnone | ⟨n, hn, hout⟩
    · exact absurd hnone (by simp [parsedShades])
    · simp only [parsedShades, Option.some_inj] at hn
      omega
  · unfold apiConvert
    simp only [parsedShades]
    rw [if_neg (by simp : ¬ (true = false)),
      if_neg (by omega : ¬ ((10 : ℤ) < 9 ∨ 12 < (10 : ℤ))),
      if_neg (by decide : ¬ (ReqFormat.json = ReqFormat.other))]
    rcases hval : validatePixelMap
        (mapToJS (convertToPixelMap decoded 50 70).1) 50 70 with _ | _
    · rw [if_neg (by simp [hval])]
      exact Or.inl rfl
    · rw [if_pos (by simp [hval])]
      exact Or.inr rfl

/-- Witness for C7: a request with image data and non-numeric shades is
rejected with the invalid-shade-count error. -/
theorem c7_witness :
    apiConvert true ⟨1, 1, [0, 0, 0, 255]⟩ (ShadesField.value none)
      ReqFormat.json "T" = ApiResponse.invalidShades := by
  exact (c7_invalid_shades_iff ⟨1, 1, [0, 0, 0, 255]⟩ (ShadesField.value none)
    ReqFormat.json "T").1.mpr (Or.inl rfl)

/-- Claim C9.  Two accepted conversion requests that differ only in their
(valid) `shades` values receive responses identical up to the echoed
`shades` metadata field: `convertToPixelMap` takes no shade-count argument
and always quantizes to 10 shades, so the pixel map grid (and the CSV body)
cannot depend on the shades parameter. -/
theorem c9_shades_noninterference (decoded : ImageBuffer)
    (s1 s2 : ShadesField) (n1 n2 : ℤ) (format : ReqFormat) (dateStr : String)
    (h1 : parsedShades s1 = some n1) (h1r : 9 ≤ n1 ∧ n1 ≤ 12)
    (h2 : parsedShades s2 = some n2) (h2r : 9 ≤ n2 ∧ n2 ≤ 12) :
    apiConvert true decoded s2 format dateStr
      = replaceShades n2 (apiConvert true decoded s1 format dateStr) := by
  unfold apiConvert
  rw [h1, h2]
  simp only [if_neg (by simp : ¬ (true = false))]
  rw [if_neg (by omega : ¬ (n1 < 9 ∨ 12 < n1)),
    if_neg (by omega : ¬ (n2 < 9 ∨ 12 < n2))]
  by_cases hfmt : format = ReqFormat.other
  · rw [if_pos hfmt, if_pos hfmt]
    rfl
  · rw [if_neg hfmt, if_neg hfmt]
    rcases hval : validatePixelMap
        (mapToJS (convertToPixelMap decoded 50 70).1) 50 70 with _ | _
    · rw [if_neg (by simp [hval]), if_neg (by simp [hval])]
      rfl
    · rw [if_pos (by simp [hval]), if_pos (by simp [hval])]
      cases format <;> simp [replaceShades]

/-- Witness for C9: a black 1×1 decoded image with shades 9 and shades 12 —
the two JSON responses agree except for the echoed shades field. -/
theorem c9_witness :
    apiConvert true ⟨1, 1, [0, 0, 0, 255]⟩ (ShadesField.value (some 12))
      ReqFormat.json "T"
      = replaceShades 12
          (apiConvert true ⟨1, 1, [0, 0, 0, 255]⟩ (ShadesField.value (some 9))
            ReqFormat.json "T") :=
  c9_shades_noninterference ⟨1, 1, [0, 0, 0, 255]⟩
    (ShadesField.value (some 9)) (ShadesField.value (some 12)) 9 12
    ReqFormat.json "T" rfl (by omega) rfl (by omega)

theorem foldl_csv_rows (pm : List (List ℕ)) :
    ∀ init : String,
      pm.foldl
        (fun acc row => acc ++ String.intercalate "," (row.map toString) ++ "\n")
        init
        = init ++ csvRowsText pm := by
  induction pm with
  | nil =>
    intro init
    simp [csvRowsText]
  | cons r rs ih =>
    intro init
    simp only [List.foldl_cons, csvRowsText]
    rw [ih]
    simp only [String.append_assoc]

/-- Claim C8 (counterexample).  The CSV header does not carry the shade
count of the request: `pixelMapToCSV` receives only the pixel map (the
route passes no shades value to it) and hardcodes `Nuances: 10`, so for an
accepted request with shades = 12 the produced CSV contains the line
`Nuances: 10` and not `Nuances: 12`. -/
theorem c8_counterexample :
    (9 ≤ (12 : ℕ) ∧ (12 : ℕ) ≤ 12)
    ∧ specCSVHeaderShade 10 (pixelMapToCSV [[0]] "T")
    ∧ ¬ specCSVHeaderShade 12 (pixelMapToCSV [[0]] "T") :=
  ⟨by norm_num, by decide, by decide⟩

/-- Claim C8 (amended).  For every non-empty rectangular pixel map, the CSV
export is a metadata header — title, `Dimensions: <width>x<height>`, the
fixed shade count line `Nuances: 10` (not the request's shades value), and
the generation timestamp — followed by a blank line and exactly one line
per pixel-map row whose comma-separated values match that row's cells in
order. -/
theorem c8_csv_structure (pm : List (List ℕ)) (w h : ℕ) (dateStr : String)
    (hne : pm ≠ []) (hh : pm.length = h) (hw : ∀ r ∈ pm, r.length = w) :
    pixelMapToCSV pm dateStr
      = "Carte de Pixels\n" ++ "Dimensions: " ++ toString w ++ "x"
        ++ toString h ++ "\n" ++ "Nuances: 10\n" ++ "Date: " ++ dateStr
        ++ "\n\n" ++ csvRowsText pm := by
  have hhead : (pm.headD []).length = w := by
    cases pm with
    | nil => exact absurd rfl hne
    | cons r rs => exact hw r (List.mem_cons_self r rs)
  unfold pixelMapToCSV
  rw [foldl_csv_rows]
  rw [hhead, hh]

/-- Witness for C8 on the 1×1 map `[[0]]`. -/
theorem c8_witness :
    pixelMapToCSV [[0]] "T"
      = "Carte de Pixels\n" ++ "Dimensions: " ++ toString (1 : ℕ) ++ "x"
        ++ toString (1 : ℕ) ++ "\n" ++ "Nuances: 10\n" ++ "Date: " ++ "T"
        ++ "\n\n" ++ csvRowsText [[0]] :=
  c8_csv_structure [[0]] 1 1 "T" (by decide) (by decide) (by decide)

/-- Witness for C4 at the all-black 1×1 image. -/
theorem c4_witness :
    isGreyscale (convertToPixelMap ⟨1, 1, [0, 0, 0, 255]⟩ 1 1).2 = true
    ∧ (convertToPixelMap (convertToPixelMap ⟨1, 1, [0, 0, 0, 255]⟩ 1 1).2 1 1).1
        = (convertToPixelMap ⟨1, 1, [0, 0, 0, 255]⟩ 1 1).1
    ∧ quantizeShade ⟨displayGreyVal 9, 0⟩ = 9 := by
  have h := c4_roundtrip ⟨1, 1, [0, 0, 0, 255]⟩ 1 1 (by decide)
  exact ⟨h.1, h.2.1, h.2.2 9 (by norm_num)⟩
